import Mathlib

/-!
Verification of the workflow-automation core (planner, executor, tool
registry, memory store) against its specification.

The development shallowly embeds the Python source:
* `app/models.py`  → the structures `ActionStep`, `ToolResult`, `TaskRecord`,
  `MemoryEntry`, `ExecuteRequest`, `ExecuteResponse` below (timestamps are
  omitted: no verified claim mentions them);
* `app/tools.py`   → `ToolRegistry` (an association list modelling the Python
  dict), `registerTool`, `runTool`;
* `app/agent.py`   → `planFn` (the rule-based planner `_plan`), `summarize`
  (`_summarize`) and `execute` (explicit state passing over `AgentState`);
* `app/memory.py`  → `vectorize` (the token multiset underlying the
  `Counter`), `dotBOW` / `sumsq` (dot product and squared norm of the
  bag-of-words frequency vectors), `cosine` (over ℝ, with the source's
  guard structure), `recent` and `semanticSearch` (Python list slices are
  modelled exactly, including their behaviour at zero and negative bounds).

Python's `list.sort` is a stable sort; `semanticSearch` therefore uses a
stable sort (`insertionSort`, proven stable below) with a computable
comparison proven equivalent to the descending order of the real cosine
scores.  String helpers (`toLowerStr`, `splitChars`) are structurally
recursive equivalents of `str.lower` and `str.split` so that every
definition evaluates inside the kernel.
-/

/-- `TaskStatus` from `app/models.py`. -/
inductive TaskStatus where
  | pending
  | running
  | completed
  | failed
deriving DecidableEq, Repr

/-- The `.value` of a `TaskStatus` (the Python enum's string payload). -/
def TaskStatus.value : TaskStatus → String
  | .pending => "pending"
  | .running => "running"
  | .completed => "completed"
  | .failed => "failed"

/-- A structured argument / payload value: the planner and the tools of the
source only ever store strings or lists of strings in argument mappings. -/
inductive Value where
  | str (s : String)
  | strList (l : List String)
deriving DecidableEq, Repr

/-- `ActionStep` from `app/models.py`: `arguments` is a string-keyed dict,
modelled as an association list. -/
structure ActionStep where
  tool : String
  description : String
  arguments : List (String × Value)
deriving DecidableEq, Repr

/-- `ToolResult` from `app/models.py`. -/
structure ToolResult where
  tool : String
  ok : Bool
  message : String
  payload : List (String × Value)
deriving DecidableEq, Repr

/-- The `kind` literal of a `MemoryEntry`. -/
inductive Kind where
  | conversation
  | task
  | note
deriving DecidableEq, Repr

/-- `MemoryEntry` from `app/models.py` (its `created_at` timestamp is
omitted; no claim under verification mentions it). -/
structure MemoryEntry where
  kind : Kind
  user_id : String
  text : String
  metadata : List (String × String)
deriving DecidableEq, Repr

/-- The `context` dict of an `ExecuteRequest`, restricted to the five keys
the planner reads (`week`, `recipients`, `transcript`, `customer_id`,
`crm_note`); `none` models key absence, so `Option.getD` is `dict.get`
with a default. -/
structure Context where
  week : Option String
  recipients : Option (List String)
  transcript : Option String
  customer_id : Option String
  crm_note : Option String
deriving DecidableEq, Repr

/-- The empty `context` dict. -/
def emptyContext : Context := ⟨none, none, none, none, none⟩

/-- `ExecuteRequest` from `app/models.py`. -/
structure ExecuteRequest where
  user_id : String
  instruction : String
  context : Context
deriving DecidableEq, Repr

/-- `TaskRecord` from `app/models.py` (timestamps omitted). -/
structure TaskRecord where
  task_id : String
  user_id : String
  instruction : String
  status : TaskStatus
  plan : List ActionStep
  outputs : List ToolResult
deriving DecidableEq, Repr

/-- `ExecuteResponse` from `app/models.py`. -/
structure ExecuteResponse where
  task_id : String
  status : TaskStatus
  plan : List ActionStep
  outputs : List ToolResult
  summary : String
deriving DecidableEq, Repr

/-- Is `n` the initial run of `l`?  (Character-list matching used by
`strContains`.) -/
def leadsWith : List Char → List Char → Bool
  | [], _ => true
  | _ :: _, [] => false
  | a :: as, b :: bs => a == b && leadsWith as bs

/-- Python's substring test `needle in hay`. -/
def strContains (hay needle : String) : Bool :=
  let h := hay.toList
  let n := needle.toList
  (List.range (h.length + 1)).any fun i => leadsWith n (h.drop i)

/-- Python's `str.lower()` (ASCII case folding), character by character. -/
def toLowerStr (s : String) : String := String.mk (s.toList.map Char.toLower)

/-- The four predicate conditions of `_plan` (`app/agent.py`), evaluated on
the lower-cased instruction text exactly as in the source. -/
def pred1 (text : String) : Bool := strContains text "sales" && strContains text "summary"

/-- Predicate 2 of `_plan`: the instruction mentions "email". -/
def pred2 (text : String) : Bool := strContains text "email"

/-- Predicate 3 of `_plan`: "meeting" together with "summarize" or "summary". -/
def pred3 (text : String) : Bool :=
  strContains text "meeting" && (strContains text "summarize" || strContains text "summary")

/-- Predicate 4 of `_plan`: "crm" or the phrase "update customer". -/
def pred4 (text : String) : Bool := strContains text "crm" || strContains text "update customer"

/-- The `sql_query` step appended by predicate 1 of `_plan`. -/
def salesSqlStep (week : String) : ActionStep :=
  { tool := "sql_query"
    description := "Fetch weekly sales totals"
    arguments :=
      [("query", .str ("SELECT salesperson, SUM(amount) AS total_amount FROM sales WHERE week = \x27"
        ++ week ++ "\x27 GROUP BY salesperson"))] }

/-- The `report_generator` step appended by predicate 1 of `_plan`. -/
def salesReportStep (week : String) : ActionStep :=
  { tool := "report_generator"
    description := "Generate sales summary report"
    arguments :=
      [("title", .str ("Sales Summary - " ++ week)),
       ("body", .str "Automatically generated summary from SQL results."),
       ("filename", .str ("sales-summary-" ++ week ++ ".txt"))] }

/-- The `email_sender` step appended by predicate 2 of `_plan`. -/
def emailStep (recipients : List String) : ActionStep :=
  { tool := "email_sender"
    description := "Email summary to stakeholders"
    arguments :=
      [("to", .strList recipients),
       ("subject", .str "Automated Business Summary"),
       ("body", .str "Generated report is ready.")] }

/-- The `meeting_summarizer` step appended by predicate 3 of `_plan`. -/
def meetingStep (transcript : String) : ActionStep :=
  { tool := "meeting_summarizer"
    description := "Summarize meeting transcript"
    arguments := [("transcript", .str transcript)] }

/-- The `crm_update` step appended by predicate 4 of `_plan`. -/
def crmStep (customer_id note : String) : ActionStep :=
  { tool := "crm_update"
    description := "Write activity note into CRM"
    arguments := [("customer_id", .str customer_id), ("note", .str note)] }

/-- The fallback `report_generator` step of `_plan`. -/
def fallbackStep (instruction : String) : ActionStep :=
  { tool := "report_generator"
    description := "Capture unsupported request into an operations report"
    arguments :=
      [("title", .str "Unhandled Automation Request"),
       ("body", .str ("Instruction: " ++ instruction)),
       ("filename", .str "unhandled-request.txt")] }

/-- `WorkflowAutomationAgent._plan` from `app/agent.py`: the ordered keyword
predicates over the lower-cased instruction, followed by the fallback step
when no predicate fired. -/
def planFn (instruction : String) (context : Context) : List ActionStep :=
  let text := toLowerStr instruction
  let part1 : List ActionStep :=
    if pred1 text then
      let week := context.week.getD "2026-W11"
      [salesSqlStep week, salesReportStep week]
    else []
  let part2 : List ActionStep :=
    if pred2 text then [emailStep (context.recipients.getD ["management@company.com"])] else []
  let part3 : List ActionStep :=
    if pred3 text then [meetingStep (context.transcript.getD "")] else []
  let part4 : List ActionStep :=
    if pred4 text then
      [crmStep (context.customer_id.getD "CUST-001") (context.crm_note.getD "Automated follow-up logged.")]
    else []
  let base := part1 ++ part2 ++ part3 ++ part4
  if base = [] then [fallbackStep instruction] else base

/-- A tool handler: a function from the argument mapping to a `ToolResult`
(`ToolHandler` in `app/tools.py`). -/
abbrev ToolHandler : Type := List (String × Value) → ToolResult

/-- `ToolRegistry` from `app/tools.py`: the name → handler dict, modelled as
an association list without duplicate keys (insertion replaces). -/
abbrev ToolRegistry : Type := List (String × ToolHandler)

/-- Dict lookup `self._tools.get(name)`. -/
def lookupTool (reg : ToolRegistry) (name : String) : Option ToolHandler :=
  (reg.find? (fun p => p.1 == name)).map Prod.snd

/-- `ToolRegistry.register`: installs or replaces the handler for `name`
(last write wins, as for a Python dict assignment). -/
def registerTool (reg : ToolRegistry) (name : String) (handler : ToolHandler) : ToolRegistry :=
  if reg.any (fun p => p.1 == name) then
    reg.map (fun p => if p.1 == name then (name, handler) else p)
  else reg ++ [(name, handler)]

/-- `ToolRegistry.run` from `app/tools.py`: an unknown name yields the
`ok = false` "Unknown tool" result; a registered handler is invoked with the
arguments and its result returned verbatim. -/
def runTool (reg : ToolRegistry) (name : String) (args : List (String × Value)) : ToolResult :=
  match lookupTool reg name with
  | none => { tool := name, ok := false, message := "Unknown tool: " ++ name, payload := [] }
  | some handler => handler args

/-- The shared mutable state of the agent process: the task table
(`WorkflowAutomationAgent.tasks`, a dict modelled as an association list)
and the memory log (`MemoryStore.entries`). -/
structure AgentState where
  tasks : List (String × TaskRecord)
  memory : List MemoryEntry

/-- Dict assignment `self.tasks[task_id] = record` (replace or append). -/
def setTask (tasks : List (String × TaskRecord)) (tid : String) (r : TaskRecord) :
    List (String × TaskRecord) :=
  if tasks.any (fun p => p.1 == tid) then
    tasks.map (fun p => if p.1 == tid then (tid, r) else p)
  else tasks ++ [(tid, r)]

/-- Dict lookup `self.tasks.get(task_id)` (`WorkflowAutomationAgent.get_task`). -/
def getTask (tasks : List (String × TaskRecord)) (tid : String) : Option TaskRecord :=
  (tasks.find? (fun p => p.1 == tid)).map Prod.snd

/-- `WorkflowAutomationAgent._summarize` from `app/agent.py`. -/
def summarize (plan : List ActionStep) (outputs : List ToolResult) : String :=
  let successful := (outputs.filter (fun r => r.ok)).length
  "Executed " ++ toString plan.length ++ " planned steps with " ++ toString successful ++
    " successful tool calls. Outputs include database extraction, artifacts, and automation actions."

/-- The step loop of `WorkflowAutomationAgent.execute`: runs the plan in
order, accumulating each result; on the first `ok = false` result it stops,
returning the accumulated outputs together with the failing step's tool name
and message.  `none` in the second component means every step succeeded. -/
def execLoop (reg : ToolRegistry) : List ActionStep → List ToolResult × Option (String × String)
  | [] => ([], none)
  | step :: rest =>
    let result := runTool reg step.tool step.arguments
    if result.ok then
      let r := execLoop reg rest
      (result :: r.1, r.2)
    else
      ([result], some (step.tool, result.message))

/-- The conversation-kind memory entry appended by `execute` before the step
loop, recording the raw instruction with the task id in its metadata. -/
def conversationEntry (user_id instruction tid : String) : MemoryEntry :=
  { kind := .conversation, user_id := user_id, text := instruction,
    metadata := [("task_id", tid)] }

/-- `WorkflowAutomationAgent.execute` from `app/agent.py`, with the fresh
`uuid4` task id passed in as `tid` and the shared state passed explicitly.
Returns the `ExecuteResponse` together with the updated state. -/
def execute (reg : ToolRegistry) (st : AgentState) (tid : String) (req : ExecuteRequest) :
    ExecuteResponse × AgentState :=
  let plan := planFn req.instruction req.context
  let record0 : TaskRecord :=
    { task_id := tid, user_id := req.user_id, instruction := req.instruction,
      status := .running, plan := plan, outputs := [] }
  let st1 : AgentState :=
    { tasks := setTask st.tasks tid record0,
      memory := st.memory ++ [conversationEntry req.user_id req.instruction tid] }
  let run := execLoop reg plan
  match run.2 with
  | some fail =>
    let record := { record0 with status := .failed, outputs := run.1 }
    ({ task_id := tid, status := .failed, plan := plan, outputs := run.1,
       summary := "Task failed during tool `" ++ fail.1 ++ "`: " ++ fail.2 },
     { st1 with tasks := setTask st1.tasks tid record })
  | none =>
    let record := { record0 with status := .completed, outputs := run.1 }
    let summary := summarize plan run.1
    ({ task_id := tid, status := .completed, plan := plan, outputs := run.1,
       summary := summary },
     { tasks := setTask st1.tasks tid record,
       memory := st1.memory ++
         [{ kind := .task, user_id := req.user_id, text := summary,
            metadata := [("task_id", tid), ("status", TaskStatus.completed.value)] }] })

/-- Python's slice `l[start:]` for an arbitrary integer `start` (negative
indices count from the end, clamped to the list's bounds). -/
def pySliceFrom (l : List α) (start : ℤ) : List α :=
  if start < 0 then l.drop (max ((l.length : ℤ) + start) 0).toNat
  else l.drop (min start (l.length : ℤ)).toNat

/-- Python's slice `l[:stop]` for an arbitrary integer `stop`. -/
def pySliceTo (l : List α) (stop : ℤ) : List α :=
  if stop < 0 then l.take (max ((l.length : ℤ) + stop) 0).toNat
  else l.take (min stop (l.length : ℤ)).toNat

/-- `MemoryStore.recent` from `app/memory.py`: filter the log by `user_id`
(insertion order preserved) and return the Python slice
`candidates[-limit:]`; `limit` is a Python `int`, so the slice semantics at
zero and negative values is modelled exactly. -/
def recent (entries : List MemoryEntry) (user_id : String) (limit : ℤ) : List MemoryEntry :=
  let candidates := entries.filter (fun e => e.user_id == user_id)
  pySliceFrom candidates (-limit)

/-- The punctuation set stripped from token edges by `_vectorize`
(`.,!?;:"'()[]` and the two braces, written escaped). -/
def punctChars : List Char :=
  ['.', ',', '!', '?', ';', ':', '\x22', '\x27', '(', ')', '[', ']', '\x7b', '\x7d']

/-- Membership in the stripped punctuation set. -/
def isPunct (c : Char) : Bool := punctChars.contains c

/-- Python's `str.strip(chars)`: remove the longest runs of set characters
from both edges. -/
def stripEdges (l : List Char) : List Char :=
  ((l.dropWhile isPunct).reverse.dropWhile isPunct).reverse

/-- Python's `str.split()`-style splitting of a character list at
whitespace (runs of separators produce empty tokens, which `_vectorize`
discards afterwards anyway). -/
def splitChars : List Char → List (List Char)
  | [] => [[]]
  | c :: cs =>
    match splitChars cs with
    | [] => [[]]
    | t :: ts => if c.isWhitespace then [] :: t :: ts else (c :: t) :: ts

/-- `MemoryStore._vectorize` from `app/memory.py`: whitespace-split the
text, strip punctuation from each token's edges, lower-case, discard empty
tokens.  The resulting token list is the bag-of-words `Counter` up to
multiplicity: every `Counter` operation the source performs is expressed
below through `List.count`. -/
def vectorize (text : String) : List String :=
  let tokens := (splitChars text.toList).map
    (fun t => String.mk ((stripEdges t).map Char.toLower))
  tokens.filter (fun t => t ≠ "")

/-- The dot product of two bag-of-words frequency vectors
(`sum(a[token] * b.get(token, 0) for token in a)` in `_cosine`): tokens
absent from `a` contribute nothing, so the sum ranges over `a`'s support. -/
def dotBOW (a b : List String) : ℕ := ∑ t ∈ a.toFinset, a.count t * b.count t

/-- The squared Euclidean norm of a frequency vector
(`sum(v * v for v in a.values())` in `_cosine`). -/
def sumsq (a : List String) : ℕ := ∑ t ∈ a.toFinset, a.count t * a.count t

/-- `MemoryStore._cosine` from `app/memory.py`, over ℝ: returns `0` when
either counter is empty or either norm is zero, and otherwise the dot
product divided by the product of the Euclidean norms. -/
noncomputable def cosine (a b : List String) : ℝ :=
  if a = [] ∨ b = [] then 0
  else if Real.sqrt (sumsq a) = 0 ∨ Real.sqrt (sumsq b) = 0 then 0
  else (dotBOW a b : ℝ) / (Real.sqrt (sumsq a) * Real.sqrt (sumsq b))

/-- A computable stand-in for an entry's cosine score against the query
vector `qv`: the pair `(dot, sumsq)` of the dot product with the query and
the entry vector's squared norm.  On the entries `semanticSearch` keeps,
comparing `d₁² · s₂` with `d₂² · s₁` is equivalent to comparing the real
cosine scores `dᵢ / (‖qv‖ · √sᵢ)` (`searchLE_iff` below). -/
def entryKey (qv : List String) (e : MemoryEntry) : ℕ × ℕ :=
  (dotBOW qv (vectorize e.text), sumsq (vectorize e.text))

/-- The descending comparison passed to the stable sort: `a` may precede `b`
when `a`'s score is at least `b`'s, compared through the cross-multiplied
squares of the `entryKey` components. -/
def searchLE (qv : List String) (a b : MemoryEntry) : Bool :=
  decide ((entryKey qv b).1 ^ 2 * (entryKey qv a).2 ≤ (entryKey qv a).1 ^ 2 * (entryKey qv b).2)

/-- Does `e` have the same score as an entry whose `entryKey` is `k`?
(Cross-multiplied form; used to state sort stability per score class.) -/
def sameScore (qv : List String) (k : ℕ × ℕ) (e : MemoryEntry) : Bool :=
  (entryKey qv e).1 ^ 2 * k.2 == k.1 ^ 2 * (entryKey qv e).2

/-- The decidable form of `_cosine(...) > 0`: both vectors nonempty and a
positive dot product (`cosine_pos_iff` proves the equivalence). -/
def scorePos (qv ev : List String) : Bool :=
  !qv.isEmpty && !ev.isEmpty && decide (0 < dotBOW qv ev)

/-- Insert `x` into `l` before the first element `y` with `le x y`;
building block of the stable insertion sort. -/
def insertSorted (le : α → α → Bool) (x : α) : List α → List α
  | [] => [x]
  | y :: ys => if le x y then x :: y :: ys else y :: insertSorted le x ys

/-- A stable sort (equal-comparing elements keep their original relative
order), modelling Python's stable `list.sort`. -/
def insertionSort (le : α → α → Bool) : List α → List α
  | [] => []
  | x :: xs => insertSorted le x (insertionSort le xs)

/-- `MemoryStore.semantic_search` from `app/memory.py`: keep the user's
entries whose cosine score against the query is positive, sort them by
descending score with a stable sort (Python's `list.sort(reverse=True)` is
stable), and return the Python slice `scored[:limit]`. -/
def semanticSearch (entries : List MemoryEntry) (user_id query : String) (limit : ℤ) :
    List MemoryEntry :=
  let qv := vectorize query
  let scored := entries.filter (fun e => e.user_id == user_id && scorePos qv (vectorize e.text))
  pySliceTo (insertionSort (searchLE qv) scored) limit

/-- The entries `semantic_search` scores and keeps before sorting: the
user's entries whose cosine score against the query is positive. -/
def scoredEntries (entries : List MemoryEntry) (user_id query : String) : List MemoryEntry :=
  entries.filter
    (fun e => e.user_id == user_id && scorePos (vectorize query) (vectorize e.text))

/-- A demonstration registry holding a single always-succeeding
`report_generator` handler (used to instantiate theorems at concrete
inputs). -/
def demoReg : ToolRegistry :=
  [("report_generator", fun _ =>
    { tool := "report_generator", ok := true, message := "Report generated", payload := [] })]

/-! ### Generic facts about the stable insertion sort -/

theorem insertSorted_perm {α : Type*} (le : α → α → Bool) (x : α) (l : List α) :
    (insertSorted le x l).Perm (x :: l) := by
  induction l with
  | nil => simp [insertSorted]
  | cons y ys ih =>
    by_cases h : le x y
    · simp [insertSorted, h]
    · simp only [insertSorted, if_neg h]
      exact (ih.cons y).trans (List.Perm.swap x y ys)

theorem insertionSort_perm {α : Type*} (le : α → α → Bool) (l : List α) :
    (insertionSort le l).Perm l := by
  induction l with
  | nil => simp [insertionSort]
  | cons x xs ih =>
    exact (insertSorted_perm le x (insertionSort le xs)).trans (ih.cons x)

theorem mem_insertSorted {α : Type*} (le : α → α → Bool) (x : α) (l : List α) {b : α} :
    b ∈ insertSorted le x l ↔ b = x ∨ b ∈ l := by
  rw [(insertSorted_perm le x l).mem_iff, List.mem_cons]

/-- Inserting into a list pairwise-ordered by a transitive relation `R`
keeps it pairwise-ordered, provided the Boolean comparison `le` decides `R`
on the elements involved. -/
theorem insertSorted_pairwise {α : Type*} (le : α → α → Bool) (R : α → α → Prop)
    (hRtrans : ∀ {a b c}, R a b → R b c → R a c) (x : α) (l : List α)
    (hle : ∀ b ∈ l, (le x b = true → R x b) ∧ (le x b = false → R b x))
    (hl : l.Pairwise R) :
    (insertSorted le x l).Pairwise R := by
  induction l with
  | nil => simp [insertSorted]
  | cons y ys ih =>
    rcases List.pairwise_cons.mp hl with ⟨hy, hys⟩
    by_cases h : le x y
    · simp only [insertSorted, if_pos h]
      refine List.pairwise_cons.mpr ⟨?_, hl⟩
      intro b hb
      have hxy : R x y := (hle y (by simp) ).1 h
      rcases List.mem_cons.mp hb with rfl | hb
      · exact hxy
      · exact hRtrans hxy (hy b hb)
    · simp only [insertSorted, if_neg h]
      refine List.pairwise_cons.mpr ⟨?_, ?_⟩
      · intro b hb
        rcases (mem_insertSorted le x ys).mp hb with rfl | hb
        · exact (hle y (by simp)).2 (by simpa using h)
        · exact hy b hb
      · exact ih (fun b hb => hle b (by simp [hb])) hys

theorem insertionSort_pairwise {α : Type*} (le : α → α → Bool) (R : α → α → Prop)
    (hRtrans : ∀ {a b c}, R a b → R b c → R a c) (l : List α)
    (hle : ∀ a ∈ l, ∀ b ∈ l, (le a b = true → R a b) ∧ (le a b = false → R b a)) :
    (insertionSort le l).Pairwise R := by
  induction l with
  | nil => simp [insertionSort]
  | cons x xs ih =>
    refine insertSorted_pairwise le R hRtrans x (insertionSort le xs) ?_ ?_
    · intro b hb
      have hbmem : b ∈ xs := (insertionSort_perm le xs).subset hb
      exact hle x (by simp) b (by simp [hbmem])
    · exact ih (fun a ha => fun b hb => hle a (by simp [ha]) b (by simp [hb]))

theorem insertSorted_filter_pos {α : Type*} (le : α → α → Bool) (p : α → Bool) (x : α)
    (l : List α) (hx : p x = true) (h : ∀ y, p y = true → le x y = true) :
    (insertSorted le x l).filter p = x :: l.filter p := by
  induction l with
  | nil => simp [insertSorted, hx]
  | cons y ys ih =>
    by_cases hxy : le x y
    · simp [insertSorted, hxy, hx]
    · have hpy : p y = false := by
        cases hy : p y with
        | false => rfl
        | true => exact absurd (h y hy) (by simpa using hxy)
      simp [insertSorted, hxy, hpy, ih]

theorem insertSorted_filter_neg {α : Type*} (le : α → α → Bool) (p : α → Bool) (x : α)
    (l : List α) (hx : p x = false) :
    (insertSorted le x l).filter p = l.filter p := by
  induction l with
  | nil => simp [insertSorted, hx]
  | cons y ys ih =>
    by_cases hxy : le x y
    · simp [insertSorted, hxy, hx]
    · cases hy : p y with
      | false => simp [insertSorted, hxy, hy, ih]
      | true => simp [insertSorted, hxy, hy, ih]

/-- Stability of the insertion sort: the restriction of the output to any
"tie class" `p` (a set of elements that all compare `le` to one another) is
exactly the restriction of the input, in the original order. -/
theorem insertionSort_filter {α : Type*} (le : α → α → Bool) (p : α → Bool)
    (hclass : ∀ a b, p a = true → p b = true → le a b = true) (l : List α) :
    (insertionSort le l).filter p = l.filter p := by
  induction l with
  | nil => rfl
  | cons x xs ih =>
    cases hx : p x with
    | true =>
      rw [insertionSort, insertSorted_filter_pos le p x _ hx (fun y hy => hclass x y hx hy), ih,
        List.filter_cons_of_pos hx]
    | false =>
      rw [insertionSort, insertSorted_filter_neg le p x _ hx, ih, List.filter_cons_of_neg (by simp [hx])]

/-! ### The task dictionary and the executor loop -/

theorem find?_map_replace (tl : List (String × TaskRecord)) (tid : String) (r : TaskRecord)
    (h : tl.any (fun p => p.1 == tid) = true) :
    (tl.map (fun p => if p.1 == tid then (tid, r) else p)).find? (fun p => p.1 == tid)
      = some (tid, r) := by
  induction tl with
  | nil => simp at h
  | cons hd tl ih =>
    rw [List.map_cons]
    by_cases hh : hd.1 == tid
    · rw [if_pos hh, List.find?_cons, show ((tid, r).1 == tid) = true by simp]
    · have hf : (hd.1 == tid) = false := Bool.eq_false_iff.mpr hh
      rw [if_neg hh, List.find?_cons, hf]
      exact ih (by simpa [hh] using h)

theorem getTask_setTask (ts : List (String × TaskRecord)) (tid : String) (r : TaskRecord) :
    getTask (setTask ts tid r) tid = some r := by
  unfold getTask setTask
  by_cases h : ts.any (fun p => p.1 == tid)
  · rw [if_pos h, find?_map_replace ts tid r h]
    rfl
  · rw [if_neg h]
    have hnone : ts.find? (fun p => p.1 == tid) = none := by
      refine List.find?_eq_none.mpr (fun p hp => ?_)
      intro hcon
      exact h (List.any_eq_true.mpr ⟨p, hp, hcon⟩)
    rw [List.find?_append, hnone, List.find?_cons_of_pos _ (by simp)]
    rfl

theorem execLoop_ok (reg : ToolRegistry) (plan : List ActionStep)
    (h : ∀ s ∈ plan, (runTool reg s.tool s.arguments).ok = true) :
    execLoop reg plan = (plan.map (fun s => runTool reg s.tool s.arguments), none) := by
  induction plan with
  | nil => rfl
  | cons s rest ih =>
    have hs := h s (by simp)
    simp [execLoop, hs, ih (fun x hx => h x (by simp [hx]))]

theorem execLoop_fail (reg : ToolRegistry) (pre rest : List ActionStep) (f : ActionStep)
    (hpre : ∀ s ∈ pre, (runTool reg s.tool s.arguments).ok = true)
    (hf : (runTool reg f.tool f.arguments).ok = false) :
    execLoop reg (pre ++ f :: rest) =
      ((pre ++ [f]).map (fun s => runTool reg s.tool s.arguments),
        some (f.tool, (runTool reg f.tool f.arguments).message)) := by
  induction pre with
  | nil => simp [execLoop, hf]
  | cons s pre ih =>
    have hs := hpre s (by simp)
    simp [execLoop, hs, ih (fun x hx => hpre x (by simp [hx]))]

/-- Decompose a plan at its first failing step. -/
theorem execLoop_first_fail (reg : ToolRegistry) (plan : List ActionStep)
    (h : ¬ ∀ s ∈ plan, (runTool reg s.tool s.arguments).ok = true) :
    ∃ pre f rest, plan = pre ++ f :: rest ∧
      (∀ s ∈ pre, (runTool reg s.tool s.arguments).ok = true) ∧
      (runTool reg f.tool f.arguments).ok = false := by
  induction plan with
  | nil => exact absurd (by simp) h
  | cons s rest ih =>
    by_cases hs : (runTool reg s.tool s.arguments).ok = true
    · have hr : ¬ ∀ x ∈ rest, (runTool reg x.tool x.arguments).ok = true := by
        intro hr
        refine h (fun x hx => ?_)
        rcases List.mem_cons.mp hx with rfl | hx
        · exact hs
        · exact hr x hx
      obtain ⟨pre, f, rest', heq, hpre, hf⟩ := ih hr
      refine ⟨s :: pre, f, rest', by simp [heq], ?_, hf⟩
      intro x hx
      rcases List.mem_cons.mp hx with rfl | hx
      · exact hs
      · exact hpre x hx
    · exact ⟨[], s, rest, rfl, by simp, by simpa using hs⟩

/-! ### Bag-of-words vectors and cosine similarity -/

theorem sumsq_pos (a : List String) (ha : a ≠ []) : 0 < sumsq a := by
  obtain ⟨x, hx⟩ := List.exists_mem_of_ne_nil a ha
  refine Finset.sum_pos' (fun t _ => Nat.zero_le _) ⟨x, List.mem_toFinset.mpr hx, ?_⟩
  have hc : 0 < a.count x := List.count_pos_iff.mpr hx
  exact Nat.mul_pos hc hc

theorem dotBOW_eq_union (a b : List String) :
    dotBOW a b = ∑ t ∈ a.toFinset ∪ b.toFinset, a.count t * b.count t := by
  unfold dotBOW
  refine Finset.sum_subset Finset.subset_union_left (fun x _ hx => ?_)
  have hc : a.count x = 0 :=
    List.count_eq_zero.mpr (fun hmem => hx (List.mem_toFinset.mpr hmem))
  simp [hc]

theorem sumsq_eq_union_left (a b : List String) :
    sumsq a = ∑ t ∈ a.toFinset ∪ b.toFinset, a.count t * a.count t := by
  unfold sumsq
  refine Finset.sum_subset Finset.subset_union_left (fun x _ hx => ?_)
  have hc : a.count x = 0 :=
    List.count_eq_zero.mpr (fun hmem => hx (List.mem_toFinset.mpr hmem))
  simp [hc]

theorem sumsq_eq_union_right (a b : List String) :
    sumsq b = ∑ t ∈ a.toFinset ∪ b.toFinset, b.count t * b.count t := by
  unfold sumsq
  refine Finset.sum_subset Finset.subset_union_right (fun x _ hx => ?_)
  have hc : b.count x = 0 :=
    List.count_eq_zero.mpr (fun hmem => hx (List.mem_toFinset.mpr hmem))
  simp [hc]

theorem dotBOW_comm (a b : List String) : dotBOW a b = dotBOW b a := by
  rw [dotBOW_eq_union a b, dotBOW_eq_union b a, Finset.union_comm]
  exact Finset.sum_congr rfl (fun x _ => Nat.mul_comm _ _)

/-- Cauchy–Schwarz for the bag-of-words vectors. -/
theorem dotBOW_sq_le (a b : List String) :
    ((dotBOW a b : ℝ)) ^ 2 ≤ (sumsq a : ℝ) * (sumsq b : ℝ) := by
  rw [dotBOW_eq_union a b, sumsq_eq_union_left a b, sumsq_eq_union_right a b]
  push_cast
  have h := Finset.sum_mul_sq_le_sq_mul_sq (a.toFinset ∪ b.toFinset)
    (fun t => (a.count t : ℝ)) (fun t => (b.count t : ℝ))
  simpa [pow_two] using h

theorem cosine_comm (a b : List String) : cosine a b = cosine b a := by
  unfold cosine
  by_cases h1 : a = []
  · simp [h1]
  by_cases h2 : b = []
  · simp [h2]
  by_cases h3 : Real.sqrt (sumsq a) = 0 <;> by_cases h4 : Real.sqrt (sumsq b) = 0 <;>
    simp [h1, h2, h3, h4, dotBOW_comm a b, mul_comm]

theorem cosine_nonneg (a b : List String) : 0 ≤ cosine a b := by
  by_cases h1 : a = [] ∨ b = []
  · unfold cosine
    rw [if_pos h1]
  by_cases h2 : Real.sqrt (sumsq a) = 0 ∨ Real.sqrt (sumsq b) = 0
  · unfold cosine
    rw [if_neg h1, if_pos h2]
  unfold cosine
  rw [if_neg h1, if_neg h2]
  positivity

theorem cosine_le_one (a b : List String) : cosine a b ≤ 1 := by
  by_cases h1 : a = [] ∨ b = []
  · unfold cosine
    rw [if_pos h1]
    norm_num
  by_cases h2 : Real.sqrt (sumsq a) = 0 ∨ Real.sqrt (sumsq b) = 0
  · unfold cosine
    rw [if_neg h1, if_pos h2]
    norm_num
  unfold cosine
  rw [if_neg h1, if_neg h2]
  push_neg at h2
  have ha : 0 < Real.sqrt (sumsq a) := lt_of_le_of_ne (Real.sqrt_nonneg _) (Ne.symm h2.1)
  have hb : 0 < Real.sqrt (sumsq b) := lt_of_le_of_ne (Real.sqrt_nonneg _) (Ne.symm h2.2)
  rw [div_le_one (by positivity)]
  have hdot : (0:ℝ) ≤ (dotBOW a b : ℝ) := Nat.cast_nonneg _
  rw [show (dotBOW a b : ℝ) = Real.sqrt ((dotBOW a b : ℝ) ^ 2) from (Real.sqrt_sq hdot).symm]
  calc Real.sqrt ((dotBOW a b : ℝ) ^ 2)
      ≤ Real.sqrt ((sumsq a : ℝ) * (sumsq b : ℝ)) := Real.sqrt_le_sqrt (dotBOW_sq_le a b)
    _ = Real.sqrt (sumsq a) * Real.sqrt (sumsq b) := Real.sqrt_mul (Nat.cast_nonneg _) _

theorem cosine_eq_one_of_count_eq (a b : List String)
    (hcount : ∀ x, a.count x = b.count x) (ha : a ≠ []) : cosine a b = 1 := by
  have hb : b ≠ [] := by
    obtain ⟨x, hx⟩ := List.exists_mem_of_ne_nil a ha
    have hxa : 0 < a.count x := List.count_pos_iff.mpr hx
    have hxb : 0 < b.count x := hcount x ▸ hxa
    exact List.ne_nil_of_mem (List.count_pos_iff.mp hxb)
  have hfin : a.toFinset = b.toFinset := by
    ext x
    simp only [List.mem_toFinset]
    constructor <;> intro hm
    · exact List.count_pos_iff.mp (hcount x ▸ List.count_pos_iff.mpr hm)
    · exact List.count_pos_iff.mp ((hcount x).symm ▸ List.count_pos_iff.mpr hm)
  have hdot : dotBOW a b = sumsq a := by
    unfold dotBOW sumsq
    exact Finset.sum_congr rfl (fun x _ => by rw [hcount x])
  have hsum : sumsq b = sumsq a := by
    unfold sumsq
    rw [← hfin]
    exact Finset.sum_congr rfl (fun x _ => by rw [hcount x])
  have hpos : 0 < sumsq a := sumsq_pos a ha
  have hsq : 0 < Real.sqrt (sumsq a) := Real.sqrt_pos.mpr (by exact_mod_cast hpos)
  unfold cosine
  rw [if_neg (by simp [ha, hb]), hsum, if_neg (by simp [hsq.ne']), hdot,
    Real.mul_self_sqrt (Nat.cast_nonneg _)]
  exact div_self (by exact_mod_cast hpos.ne')

theorem cosine_eq_zero_of_disjoint (a b : List String) (h : ∀ x ∈ a, x ∉ b) :
    cosine a b = 0 := by
  have hdot : dotBOW a b = 0 := by
    unfold dotBOW
    refine Finset.sum_eq_zero (fun x hx => ?_)
    have hb0 : b.count x = 0 := List.count_eq_zero.mpr (h x (List.mem_toFinset.mp hx))
    simp [hb0]
  unfold cosine
  by_cases h1 : a = [] ∨ b = []
  · rw [if_pos h1]
  rw [if_neg h1]
  by_cases h2 : Real.sqrt (sumsq a) = 0 ∨ Real.sqrt (sumsq b) = 0
  · rw [if_pos h2]
  rw [if_neg h2, hdot]
  simp

theorem cosine_pos_iff (a b : List String) :
    0 < cosine a b ↔ a ≠ [] ∧ b ≠ [] ∧ 0 < dotBOW a b := by
  unfold cosine
  by_cases h1 : a = [] ∨ b = []
  · rw [if_pos h1]
    rcases h1 with h | h <;> simp [h]
  push_neg at h1
  have hsa : 0 < Real.sqrt (sumsq a) :=
    Real.sqrt_pos.mpr (by exact_mod_cast sumsq_pos a h1.1)
  have hsb : 0 < Real.sqrt (sumsq b) :=
    Real.sqrt_pos.mpr (by exact_mod_cast sumsq_pos b h1.2)
  rw [if_neg (by simp [h1.1, h1.2]), if_neg (by simp [hsa.ne', hsb.ne']),
    lt_div_iff₀ (by positivity), zero_mul]
  simp [h1.1, h1.2, Nat.cast_pos]

theorem scorePos_iff_cosine_pos (qv ev : List String) :
    scorePos qv ev = true ↔ 0 < cosine qv ev := by
  rw [cosine_pos_iff]
  simp only [scorePos, Bool.and_eq_true, Bool.not_eq_true', List.isEmpty_eq_false,
    decide_eq_true_iff, and_assoc]

/-- In the main branch of `_cosine` (both vectors nonempty) the score is the
dot product over the product of norms. -/
theorem cosine_of_ne_nil (a b : List String) (ha : a ≠ []) (hb : b ≠ []) :
    cosine a b = (dotBOW a b : ℝ) / (Real.sqrt (sumsq a) * Real.sqrt (sumsq b)) := by
  have hsa : 0 < Real.sqrt (sumsq a) :=
    Real.sqrt_pos.mpr (by exact_mod_cast sumsq_pos a ha)
  have hsb : 0 < Real.sqrt (sumsq b) :=
    Real.sqrt_pos.mpr (by exact_mod_cast sumsq_pos b hb)
  unfold cosine
  rw [if_neg (by simp [ha, hb]), if_neg (by simp [hsa.ne', hsb.ne'])]

/-- Comparing two entries' cosine scores against the same non-empty query
vector is equivalent to comparing the cross-multiplied squares
`dot² · sumsq` of their integer data. -/
theorem crossMul_le_iff (q va vb : List String) (hq : q ≠ []) (ha : va ≠ []) (hb : vb ≠ []) :
    (dotBOW q vb ^ 2 * sumsq va ≤ dotBOW q va ^ 2 * sumsq vb ↔
      cosine q vb ≤ cosine q va) := by
  have hQ : 0 < Real.sqrt (sumsq q) :=
    Real.sqrt_pos.mpr (by exact_mod_cast sumsq_pos q hq)
  have hsa : 0 < Real.sqrt (sumsq va) :=
    Real.sqrt_pos.mpr (by exact_mod_cast sumsq_pos va ha)
  have hsb : 0 < Real.sqrt (sumsq vb) :=
    Real.sqrt_pos.mpr (by exact_mod_cast sumsq_pos vb hb)
  rw [cosine_of_ne_nil q va hq ha, cosine_of_ne_nil q vb hq hb,
    div_le_div_iff₀ (mul_pos hQ hsb) (mul_pos hQ hsa),
    show (dotBOW q vb : ℝ) * (Real.sqrt (sumsq q) * Real.sqrt (sumsq va))
        = Real.sqrt (sumsq q) * ((dotBOW q vb : ℝ) * Real.sqrt (sumsq va)) by ring,
    show (dotBOW q va : ℝ) * (Real.sqrt (sumsq q) * Real.sqrt (sumsq vb))
        = Real.sqrt (sumsq q) * ((dotBOW q va : ℝ) * Real.sqrt (sumsq vb)) by ring,
    mul_le_mul_left hQ,
    show (dotBOW q vb : ℝ) * Real.sqrt (sumsq va)
        = Real.sqrt ((dotBOW q vb ^ 2 * sumsq va : ℕ)) by
      push_cast
      rw [Real.sqrt_mul (by positivity), Real.sqrt_sq (by positivity)],
    show (dotBOW q va : ℝ) * Real.sqrt (sumsq vb)
        = Real.sqrt ((dotBOW q va ^ 2 * sumsq vb : ℕ)) by
      push_cast
      rw [Real.sqrt_mul (by positivity), Real.sqrt_sq (by positivity)],
    Real.sqrt_le_sqrt_iff (Nat.cast_nonneg _), Nat.cast_le]

/-- The sort comparison decides the descending order of the real cosine
scores on entries with nonempty vectors. -/
theorem searchLE_iff (qv : List String) (a b : MemoryEntry)
    (hq : qv ≠ []) (ha : vectorize a.text ≠ []) (hb : vectorize b.text ≠ []) :
    (searchLE qv a b = true ↔
      cosine qv (vectorize b.text) ≤ cosine qv (vectorize a.text)) := by
  rw [searchLE, decide_eq_true_iff]
  exact crossMul_le_iff qv (vectorize a.text) (vectorize b.text) hq ha hb

/-- Two entries are in the same `sameScore` class exactly when their real
cosine scores coincide (entries with nonempty vectors, same query). -/
theorem sameScore_iff (qv : List String) (a b : MemoryEntry)
    (hq : qv ≠ []) (ha : vectorize a.text ≠ []) (hb : vectorize b.text ≠ []) :
    (sameScore qv (entryKey qv b) a = true ↔
      cosine qv (vectorize a.text) = cosine qv (vectorize b.text)) := by
  rw [sameScore, beq_iff_eq, entryKey, entryKey]
  constructor
  · intro h
    refine le_antisymm ?_ ?_
    · exact (crossMul_le_iff qv (vectorize b.text) (vectorize a.text) hq hb ha).mp (le_of_eq h)
    · exact (crossMul_le_iff qv (vectorize a.text) (vectorize b.text) hq ha hb).mp (ge_of_eq h)
  · intro h
    refine le_antisymm ?_ ?_
    · exact (crossMul_le_iff qv (vectorize b.text) (vectorize a.text) hq hb ha).mpr (le_of_eq h)
    · exact (crossMul_le_iff qv (vectorize a.text) (vectorize b.text) hq ha hb).mpr (ge_of_eq h)

/-- Entries of one `sameScore` class (with a genuine reference key, second
component positive) all compare `searchLE` to one another: the hypothesis
the stability lemma `insertionSort_filter` needs. -/
theorem sameScore_searchLE (qv : List String) (k : ℕ × ℕ) (hk : 0 < k.2)
    (a c : MemoryEntry) (hA : sameScore qv k a = true) (hC : sameScore qv k c = true) :
    searchLE qv a c = true := by
  rw [sameScore, beq_iff_eq] at hA hC
  rw [searchLE, decide_eq_true_iff]
  have h : (entryKey qv c).1 ^ 2 * (entryKey qv a).2 * k.2
      = (entryKey qv a).1 ^ 2 * (entryKey qv c).2 * k.2 := by
    calc (entryKey qv c).1 ^ 2 * (entryKey qv a).2 * k.2
        = (entryKey qv c).1 ^ 2 * k.2 * (entryKey qv a).2 := by ring
      _ = k.1 ^ 2 * (entryKey qv c).2 * (entryKey qv a).2 := by rw [hC]
      _ = k.1 ^ 2 * (entryKey qv a).2 * (entryKey qv c).2 := by ring
      _ = (entryKey qv a).1 ^ 2 * k.2 * (entryKey qv c).2 := by rw [hA]
      _ = (entryKey qv a).1 ^ 2 * (entryKey qv c).2 * k.2 := by ring
  exact le_of_eq (Nat.eq_of_mul_eq_mul_right hk h)

/-! ### Closed forms of `execute` on the failing and the all-ok path -/

theorem execute_fail_eq (reg : ToolRegistry) (st : AgentState) (tid : String)
    (req : ExecuteRequest) (pre rest : List ActionStep) (f : ActionStep)
    (hplan : planFn req.instruction req.context = pre ++ f :: rest)
    (hpre : ∀ s ∈ pre, (runTool reg s.tool s.arguments).ok = true)
    (hf : (runTool reg f.tool f.arguments).ok = false) :
    execute reg st tid req =
      ({ task_id := tid, status := .failed, plan := pre ++ f :: rest,
         outputs := (pre ++ [f]).map (fun s => runTool reg s.tool s.arguments),
         summary := "Task failed during tool `" ++ f.tool ++ "`: "
           ++ (runTool reg f.tool f.arguments).message },
       { tasks := setTask (setTask st.tasks tid
            { task_id := tid, user_id := req.user_id, instruction := req.instruction,
              status := .running, plan := pre ++ f :: rest, outputs := [] }) tid
            { task_id := tid, user_id := req.user_id, instruction := req.instruction,
              status := .failed, plan := pre ++ f :: rest,
              outputs := (pre ++ [f]).map (fun s => runTool reg s.tool s.arguments) },
         memory := st.memory ++ [conversationEntry req.user_id req.instruction tid] }) := by
  simp only [execute]
  rw [hplan, execLoop_fail reg pre rest f hpre hf]

theorem execute_ok_eq (reg : ToolRegistry) (st : AgentState) (tid : String)
    (req : ExecuteRequest)
    (hall : ∀ s ∈ planFn req.instruction req.context,
      (runTool reg s.tool s.arguments).ok = true) :
    execute reg st tid req =
      ({ task_id := tid, status := .completed, plan := planFn req.instruction req.context,
         outputs := (planFn req.instruction req.context).map
           (fun s => runTool reg s.tool s.arguments),
         summary := summarize (planFn req.instruction req.context)
           ((planFn req.instruction req.context).map (fun s => runTool reg s.tool s.arguments)) },
       { tasks := setTask (setTask st.tasks tid
            { task_id := tid, user_id := req.user_id, instruction := req.instruction,
              status := .running, plan := planFn req.instruction req.context, outputs := [] }) tid
            { task_id := tid, user_id := req.user_id, instruction := req.instruction,
              status := .completed, plan := planFn req.instruction req.context,
              outputs := (planFn req.instruction req.context).map
                (fun s => runTool reg s.tool s.arguments) },
         memory := (st.memory ++ [conversationEntry req.user_id req.instruction tid]) ++
           [{ kind := .task, user_id := req.user_id,
              text := summarize (planFn req.instruction req.context)
                ((planFn req.instruction req.context).map (fun s => runTool reg s.tool s.arguments)),
              metadata := [("task_id", tid), ("status", TaskStatus.completed.value)] }] }) := by
  simp only [execute]
  rw [execLoop_ok reg (planFn req.instruction req.context) hall]

/-! ### The claims -/

/-- C9: `ToolRegistry.run` on an unregistered name returns the
`ok = false` result `Unknown tool: <name>` as a reported value (not a
raised error) without invoking any handler — the result is the same for
every registry in which the name is unbound — and, `runTool` being a pure
function of the registry, the registry is left unchanged. -/
theorem claim_C9_unknown_tool (reg : ToolRegistry) (name : String)
    (args : List (String × Value)) (h : lookupTool reg name = none) :
    runTool reg name args
      = { tool := name, ok := false, message := "Unknown tool: " ++ name, payload := [] }
    ∧ ∀ reg2 : ToolRegistry, lookupTool reg2 name = none →
        runTool reg2 name args = runTool reg name args := by
  constructor
  · rw [runTool, h]
  · intro reg2 h2
    rw [runTool, h2, runTool, h]

/-- Witness for C9: the never-registered name `vector_db` against the
demonstration registry. -/
theorem claim_C9_witness :
    runTool demoReg "vector_db" []
      = { tool := "vector_db", ok := false, message := "Unknown tool: vector_db",
          payload := [] }
    ∧ ∀ reg2 : ToolRegistry, lookupTool reg2 "vector_db" = none →
        runTool reg2 "vector_db" [] = runTool demoReg "vector_db" [] :=
  claim_C9_unknown_tool demoReg "vector_db" [] rfl

/-- C2: when step `k = pre.length + 1` (1-indexed) is the first step of the
plan whose result has `ok = false`, `execute` stops there: the returned and
persisted outputs are exactly the results of the first `k` steps (so later
steps are never run), the status is `failed`, and the summary names the
failing tool and echoes its message. -/
theorem claim_C2_short_circuit (reg : ToolRegistry) (st : AgentState) (tid : String)
    (req : ExecuteRequest) (pre rest : List ActionStep) (f : ActionStep)
    (hplan : planFn req.instruction req.context = pre ++ f :: rest)
    (hpre : ∀ s ∈ pre, (runTool reg s.tool s.arguments).ok = true)
    (hf : (runTool reg f.tool f.arguments).ok = false) :
    (execute reg st tid req).1.outputs.length = pre.length + 1
    ∧ (execute reg st tid req).1.status = TaskStatus.failed
    ∧ (execute reg st tid req).1.outputs
        = (pre ++ [f]).map (fun s => runTool reg s.tool s.arguments)
    ∧ (execute reg st tid req).1.summary
        = "Task failed during tool `" ++ f.tool ++ "`: "
          ++ (runTool reg f.tool f.arguments).message
    ∧ ∃ r, getTask (execute reg st tid req).2.tasks tid = some r
        ∧ r.status = TaskStatus.failed
        ∧ r.outputs = (pre ++ [f]).map (fun s => runTool reg s.tool s.arguments)
        ∧ r.plan = planFn req.instruction req.context := by
  rw [execute_fail_eq reg st tid req pre rest f hplan hpre hf]
  exact ⟨by simp, rfl, rfl, rfl, ⟨_, getTask_setTask _ _ _, rfl, rfl, hplan.symm⟩⟩

/-- Witness for C2: an `email` instruction against the empty registry; the
single planned step is the first (and last) to fail. -/
theorem claim_C2_witness :
    (execute [] { tasks := [], memory := [] } "t-c2"
        { user_id := "u2", instruction := "email", context := emptyContext }).1.outputs.length
      = 0 + 1
    ∧ (execute [] { tasks := [], memory := [] } "t-c2"
        { user_id := "u2", instruction := "email", context := emptyContext }).1.status
      = TaskStatus.failed
    ∧ (execute [] { tasks := [], memory := [] } "t-c2"
        { user_id := "u2", instruction := "email", context := emptyContext }).1.summary
      = "Task failed during tool `email_sender`: Unknown tool: email_sender" := by
  have h := claim_C2_short_circuit [] { tasks := [], memory := [] } "t-c2"
    { user_id := "u2", instruction := "email", context := emptyContext }
    [] [] (emailStep ["management@company.com"]) (by decide) (by simp) (by decide)
  exact ⟨h.1, h.2.1, h.2.2.2.1⟩

/-- C4: when every planned step succeeds, the status is `completed`, the
outputs cover the whole plan, the memory gains the conversation entry and
exactly one `task`-kind entry whose text is the computed summary and whose
metadata carries the task id and the final status, and the persisted record
holds the full outputs. -/
theorem claim_C4_completed (reg : ToolRegistry) (st : AgentState) (tid : String)
    (req : ExecuteRequest)
    (hall : ∀ s ∈ planFn req.instruction req.context,
      (runTool reg s.tool s.arguments).ok = true) :
    (execute reg st tid req).1.status = TaskStatus.completed
    ∧ (execute reg st tid req).1.outputs.length = (planFn req.instruction req.context).length
    ∧ (execute reg st tid req).2.memory
        = st.memory
          ++ [conversationEntry req.user_id req.instruction tid]
          ++ [{ kind := Kind.task, user_id := req.user_id,
                text := summarize (planFn req.instruction req.context)
                  ((planFn req.instruction req.context).map
                    (fun s => runTool reg s.tool s.arguments)),
                metadata := [("task_id", tid), ("status", "completed")] }]
    ∧ ((execute reg st tid req).2.memory.filter (fun e => e.kind == Kind.task)).length
        = (st.memory.filter (fun e => e.kind == Kind.task)).length + 1
    ∧ getTask (execute reg st tid req).2.tasks tid
        = some { task_id := tid, user_id := req.user_id, instruction := req.instruction,
                 status := TaskStatus.completed, plan := planFn req.instruction req.context,
                 outputs := (planFn req.instruction req.context).map
                   (fun s => runTool reg s.tool s.arguments) } := by
  rw [execute_ok_eq reg st tid req hall]
  refine ⟨rfl, by simp, rfl, ?_, getTask_setTask _ _ _⟩
  simp [List.filter_append, conversationEntry]

/-- Witness for C4: a fallback plan whose single `report_generator` step
succeeds against the demonstration registry. -/
theorem claim_C4_witness :
    (execute demoReg { tasks := [], memory := [] } "t-c4"
        { user_id := "u4", instruction := "hello", context := emptyContext }).1.status
      = TaskStatus.completed
    ∧ (execute demoReg { tasks := [], memory := [] } "t-c4"
        { user_id := "u4", instruction := "hello", context := emptyContext }).1.outputs.length
      = (planFn "hello" emptyContext).length
    ∧ ((execute demoReg { tasks := [], memory := [] } "t-c4"
        { user_id := "u4", instruction := "hello", context := emptyContext }).2.memory.filter
          (fun e => e.kind == Kind.task)).length
      = (([] : List MemoryEntry).filter (fun e => e.kind == Kind.task)).length + 1 := by
  have h := claim_C4_completed demoReg { tasks := [], memory := [] } "t-c4"
    { user_id := "u4", instruction := "hello", context := emptyContext } (by decide)
  exact ⟨h.1, h.2.1, h.2.2.2.1⟩

/-- C10: a failing execution adds exactly one memory entry during the call:
the conversation-kind record of the raw instruction with the task id in its
metadata (added before the step loop); no task-kind entry is appended and
no other entry is added or modified. -/
theorem claim_C10_failed_memory_frame (reg : ToolRegistry) (st : AgentState) (tid : String)
    (req : ExecuteRequest)
    (hfail : (execute reg st tid req).1.status = TaskStatus.failed) :
    (execute reg st tid req).2.memory
      = st.memory ++ [conversationEntry req.user_id req.instruction tid]
    ∧ (execute reg st tid req).2.memory.filter (fun e => e.kind == Kind.task)
        = st.memory.filter (fun e => e.kind == Kind.task) := by
  by_cases hall : ∀ s ∈ planFn req.instruction req.context,
      (runTool reg s.tool s.arguments).ok = true
  · rw [execute_ok_eq reg st tid req hall] at hfail
    exact absurd hfail (by simp)
  · obtain ⟨pre, f, rest, hplan, hpre, hf⟩ := execLoop_first_fail reg _ hall
    rw [execute_fail_eq reg st tid req pre rest f hplan hpre hf]
    exact ⟨rfl, by simp [List.filter_append, conversationEntry]⟩

/-- Witness for C10: the failing `email` execution against the empty
registry adds exactly the conversation entry. -/
theorem claim_C10_witness :
    (execute [] { tasks := [], memory := [] } "t-c10"
        { user_id := "u3", instruction := "email", context := emptyContext }).2.memory
      = [conversationEntry "u3" "email" "t-c10"] := by
  have h := claim_C10_failed_memory_frame [] { tasks := [], memory := [] } "t-c10"
    { user_id := "u3", instruction := "email", context := emptyContext } (by decide)
  simpa using h.1

/-- C1 (amended): the persisted record satisfies
`outputs.length ≤ plan.length`; a completed record has full outputs; a
failed record's outputs are the results of the first `outputs.length` steps
— the step at index `outputs.length - 1` is the failing one and no later
step was attempted.  (Equality of lengths also occurs when the *last* step
fails, so "equal iff completed" does not hold — see the counterexample.) -/
theorem claim_C1_record_invariant (reg : ToolRegistry) (st : AgentState) (tid : String)
    (req : ExecuteRequest) :
    ∃ r, getTask (execute reg st tid req).2.tasks tid = some r
      ∧ r.plan = planFn req.instruction req.context
      ∧ r.outputs.length ≤ r.plan.length
      ∧ (r.status = TaskStatus.completed ∨ r.status = TaskStatus.failed)
      ∧ (r.status = TaskStatus.completed → r.outputs.length = r.plan.length)
      ∧ (r.status = TaskStatus.failed →
          ∃ pre f rest, r.plan = pre ++ f :: rest
            ∧ pre.length + 1 = r.outputs.length
            ∧ r.outputs = (pre ++ [f]).map (fun s => runTool reg s.tool s.arguments)
            ∧ (∀ s ∈ pre, (runTool reg s.tool s.arguments).ok = true)
            ∧ (runTool reg f.tool f.arguments).ok = false) := by
  by_cases hall : ∀ s ∈ planFn req.instruction req.context,
      (runTool reg s.tool s.arguments).ok = true
  · rw [execute_ok_eq reg st tid req hall]
    exact ⟨_, getTask_setTask _ _ _, rfl, by simp, Or.inl rfl, fun _ => by simp,
      fun hcon => by simp at hcon⟩
  · obtain ⟨pre, f, rest, hplan, hpre, hf⟩ := execLoop_first_fail reg _ hall
    rw [execute_fail_eq reg st tid req pre rest f hplan hpre hf]
    refine ⟨_, getTask_setTask _ _ _, hplan.symm, by simp, Or.inr rfl,
      fun hcon => by simp at hcon, fun _ => ⟨pre, f, rest, rfl, by simp, rfl, hpre, hf⟩⟩

/-- Counterexample to C1 as stated: an `email` instruction against the
empty registry plans one step, whose result (`ok = false`) is still
appended, so the failed record has `outputs.length = plan.length` while its
status is not `completed` — refuting "lengths are equal iff status is
completed". -/
theorem claim_C1_counterexample :
    ∃ r, getTask (execute [] { tasks := [], memory := [] } "t-c1"
          { user_id := "u1", instruction := "email", context := emptyContext }).2.tasks "t-c1"
        = some r
      ∧ r.outputs.length = r.plan.length
      ∧ r.status ≠ TaskStatus.completed := by
  refine ⟨{ task_id := "t-c1", user_id := "u1", instruction := "email",
            status := TaskStatus.failed, plan := [emailStep ["management@company.com"]],
            outputs := [{ tool := "email_sender", ok := false,
                          message := "Unknown tool: email_sender", payload := [] }] },
    ?_, by decide, by decide⟩
  decide

/-- C7: the planner's fallback (a single `report_generator` step capturing
the raw instruction) fires exactly when none of predicates 1–4 matched the
lower-cased instruction, and the produced plan is never empty. -/
theorem claim_C7_fallback (instruction : String) (context : Context) :
    planFn instruction context ≠ []
    ∧ (planFn instruction context = [fallbackStep instruction]
        ↔ pred1 (toLowerStr instruction) = false ∧ pred2 (toLowerStr instruction) = false
          ∧ pred3 (toLowerStr instruction) = false ∧ pred4 (toLowerStr instruction) = false) := by
  simp only [planFn]
  cases h1 : pred1 (toLowerStr instruction) <;>
  cases h2 : pred2 (toLowerStr instruction) <;>
  cases h3 : pred3 (toLowerStr instruction) <;>
  cases h4 : pred4 (toLowerStr instruction) <;>
    simp [h1, h2, h3, h4, salesSqlStep, salesReportStep, emailStep, meetingStep, crmStep,
      fallbackStep]

/-- Witness for C7: a concrete instruction matched by no predicate. -/
theorem claim_C7_witness :
    planFn "please archive this" emptyContext ≠ []
    ∧ (planFn "please archive this" emptyContext = [fallbackStep "please archive this"]
        ↔ pred1 (toLowerStr "please archive this") = false
          ∧ pred2 (toLowerStr "please archive this") = false
          ∧ pred3 (toLowerStr "please archive this") = false
          ∧ pred4 (toLowerStr "please archive this") = false) :=
  claim_C7_fallback "please archive this" emptyContext

/-- C8: whenever the lower-cased instruction contains both "sales" and
"summary", the plan opens with the `sql_query` step followed by the
`report_generator` step, both built from the same week value — `context
["week"]` if present, else the default `2026-W11` (the week appears in the
SQL query string and in the report's title and filename, see
`salesSqlStep` / `salesReportStep`). -/
theorem claim_C8_sales_summary (instruction : String) (context : Context)
    (h1 : strContains (toLowerStr instruction) "sales" = true)
    (h2 : strContains (toLowerStr instruction) "summary" = true) :
    (planFn instruction context).take 2
      = [salesSqlStep (context.week.getD "2026-W11"),
         salesReportStep (context.week.getD "2026-W11")] := by
  have hp1 : pred1 (toLowerStr instruction) = true := by rw [pred1, h1, h2]; rfl
  simp only [planFn]
  rw [hp1]
  simp

/-- Witness for C8: a sales-summary instruction with an explicit week in
the context; both leading steps embed `2026-W12`. -/
theorem claim_C8_witness :
    (planFn "Compile the SALES summary now"
        { week := some "2026-W12", recipients := none, transcript := none,
          customer_id := none, crm_note := none }).take 2
      = [salesSqlStep "2026-W12", salesReportStep "2026-W12"] :=
  claim_C8_sales_summary "Compile the SALES summary now"
    { week := some "2026-W12", recipients := none, transcript := none,
      customer_id := none, crm_note := none } (by decide) (by decide)

/-- C3 (amended: for `limit ≥ 1`): `recent` returns at most `limit`
entries, all belonging to the user, forming a suffix (the most recent
window, oldest-to-newest) of the user-filtered log in insertion order; when
fewer than `limit` matching entries exist it returns all of them.  (At
`limit = 0` the claim fails — see the counterexample: the Python slice
`[-0:]` is the whole list.) -/
theorem claim_C3_recent (entries : List MemoryEntry) (uid : String) (limit : ℤ)
    (hl : 1 ≤ limit) :
    ((recent entries uid limit).length : ℤ) ≤ limit
    ∧ (∀ e ∈ recent entries uid limit, e.user_id = uid)
    ∧ recent entries uid limit <:+ entries.filter (fun e => e.user_id == uid)
    ∧ (((entries.filter (fun e => e.user_id == uid)).length : ℤ) ≤ limit →
        recent entries uid limit = entries.filter (fun e => e.user_id == uid)) := by
  set c := entries.filter (fun e => e.user_id == uid) with hc
  have hneg : -limit < 0 := by omega
  have hrec : recent entries uid limit = c.drop (max ((c.length : ℤ) + -limit) 0).toNat := by
    rw [recent, pySliceFrom, if_pos hneg]
  have hsuffix : recent entries uid limit <:+ c := by
    rw [hrec]
    exact List.drop_suffix _ _
  refine ⟨?_, ?_, hsuffix, ?_⟩
  · rw [hrec, List.length_drop]
    have hmax : ((max ((c.length : ℤ) + -limit) 0).toNat : ℤ) = max ((c.length : ℤ) + -limit) 0 :=
      Int.toNat_of_nonneg (le_max_right _ _)
    have h1 : (c.length : ℤ) + -limit ≤ ((max ((c.length : ℤ) + -limit) 0).toNat : ℤ) := by
      rw [hmax]
      exact le_max_left _ _
    omega
  · intro e he
    have hec : e ∈ c := hsuffix.subset he
    rw [hc] at hec
    simpa using (List.mem_filter.mp hec).2
  · intro hlen
    have hle : (c.length : ℤ) + -limit ≤ 0 := by omega
    rw [hrec, max_eq_right hle]
    simp

/-- Witness for C3 at `limit = 1` on a three-entry log: the window is the
single most recent entry of the user. -/
theorem claim_C3_witness :
    ((recent [{ kind := Kind.note, user_id := "u5", text := "a", metadata := [] },
              { kind := Kind.note, user_id := "v5", text := "b", metadata := [] },
              { kind := Kind.note, user_id := "u5", text := "c", metadata := [] }] "u5" 1).length : ℤ)
      ≤ 1
    ∧ ∀ e ∈ recent [{ kind := Kind.note, user_id := "u5", text := "a", metadata := [] },
              { kind := Kind.note, user_id := "v5", text := "b", metadata := [] },
              { kind := Kind.note, user_id := "u5", text := "c", metadata := [] }] "u5" 1,
        e.user_id = "u5" := by
  have h := claim_C3_recent [{ kind := Kind.note, user_id := "u5", text := "a", metadata := [] },
    { kind := Kind.note, user_id := "v5", text := "b", metadata := [] },
    { kind := Kind.note, user_id := "u5", text := "c", metadata := [] }] "u5" 1 (by norm_num)
  exact ⟨h.1, h.2.1⟩

/-- Counterexample to C3 as stated: at `limit = 0` the slice
`candidates[-0:]` is `candidates[0:]`, the whole filtered log, so `recent`
returns one entry where at most zero were claimed. -/
theorem claim_C3_counterexample :
    ¬ (((recent [{ kind := Kind.note, user_id := "u0", text := "hello", metadata := [] }]
          "u0" 0).length : ℤ) ≤ 0) := by
  decide

/-- C5: cosine similarity over bag-of-words frequency vectors is symmetric,
bounded in [0, 1] (counts are non-negative by construction), equals 1 when
two texts tokenize — case-folded and punctuation-trimmed — to the same
non-empty frequency vector, and equals 0 when the token sets share no
token. -/
theorem claim_C5_cosine (a b : List String) (s t : String) :
    cosine a b = cosine b a
    ∧ 0 ≤ cosine a b
    ∧ cosine a b ≤ 1
    ∧ (vectorize s ≠ [] → (vectorize s).Perm (vectorize t) →
        cosine (vectorize s) (vectorize t) = 1)
    ∧ ((∀ x ∈ a, x ∉ b) → cosine a b = 0) := by
  refine ⟨cosine_comm a b, cosine_nonneg a b, cosine_le_one a b, ?_,
    cosine_eq_zero_of_disjoint a b⟩
  intro hs hperm
  exact cosine_eq_one_of_count_eq _ _ (fun x => hperm.count_eq x) hs

/-- Witness for C5: two texts with the same vector up to case and
punctuation score 1; disjoint token sets score 0. -/
theorem claim_C5_witness :
    cosine (vectorize "Sales, summary!") (vectorize "SUMMARY sales") = 1
    ∧ cosine (vectorize "alpha beta") (vectorize "gamma") = 0 := by
  constructor
  · exact (claim_C5_cosine [] [] "Sales, summary!" "SUMMARY sales").2.2.2.1
      (by decide) (by decide)
  · exact (claim_C5_cosine (vectorize "alpha beta") (vectorize "gamma") "" "").2.2.2.2
      (by decide)

/-- C6 (amended: the truncation bound holds for every `limit ≥ 0`; a
negative `limit` reproduces Python's `scored[:limit]`, which keeps all but
the last entries — see the counterexample): `semantic_search` considers
only entries of the given user, keeps exactly those with positive cosine
score against the query, sorts them by descending real cosine score with
ties in original insertion order (stable sort), and returns the slice
`[:limit]` of that ordering. -/
theorem claim_C6_semantic_search (entries : List MemoryEntry) (uid query : String)
    (limit : ℤ) :
    (∀ e ∈ semanticSearch entries uid query limit,
        e.user_id = uid ∧ 0 < cosine (vectorize query) (vectorize e.text))
    ∧ (∀ e ∈ entries, e.user_id = uid →
        ¬ 0 < cosine (vectorize query) (vectorize e.text) →
          e ∉ semanticSearch entries uid query limit)
    ∧ (0 ≤ limit → ((semanticSearch entries uid query limit).length : ℤ) ≤ limit)
    ∧ semanticSearch entries uid query limit
        = pySliceTo (insertionSort (searchLE (vectorize query))
            (scoredEntries entries uid query)) limit
    ∧ (insertionSort (searchLE (vectorize query)) (scoredEntries entries uid query)).Perm
        (scoredEntries entries uid query)
    ∧ (insertionSort (searchLE (vectorize query)) (scoredEntries entries uid query)).Pairwise
        (fun x y => cosine (vectorize query) (vectorize y.text)
          ≤ cosine (vectorize query) (vectorize x.text))
    ∧ (∀ b ∈ scoredEntries entries uid query,
        (insertionSort (searchLE (vectorize query)) (scoredEntries entries uid query)).filter
            (sameScore (vectorize query) (entryKey (vectorize query) b))
          = (scoredEntries entries uid query).filter
            (sameScore (vectorize query) (entryKey (vectorize query) b)))
    ∧ (∀ a ∈ scoredEntries entries uid query, ∀ b ∈ scoredEntries entries uid query,
        (sameScore (vectorize query) (entryKey (vectorize query) b) a = true
          ↔ cosine (vectorize query) (vectorize a.text)
            = cosine (vectorize query) (vectorize b.text))) := by
  set qv := vectorize query with hqv
  set scored := scoredEntries entries uid query with hscored
  have hmem : ∀ e ∈ scored, (e.user_id == uid) = true
      ∧ scorePos qv (vectorize e.text) = true := by
    intro e he
    rw [hscored, scoredEntries] at he
    exact Bool.and_eq_true _ _ |>.mp (List.mem_filter.mp he).2
  have hfacts : ∀ e ∈ scored,
      qv ≠ [] ∧ vectorize e.text ≠ [] ∧ 0 < dotBOW qv (vectorize e.text) := by
    intro e he
    have h2 := (hmem e he).2
    rw [scorePos] at h2
    simp only [Bool.and_eq_true, Bool.not_eq_true', List.isEmpty_eq_false,
      decide_eq_true_iff] at h2
    exact ⟨h2.1.1, h2.1.2, h2.2⟩
  have hperm : (insertionSort (searchLE qv) scored).Perm scored := insertionSort_perm _ _
  have hpair : (insertionSort (searchLE qv) scored).Pairwise
      (fun x y => cosine qv (vectorize y.text) ≤ cosine qv (vectorize x.text)) := by
    refine insertionSort_pairwise _ _ ?_ scored ?_
    · intro x y z hab hbc
      exact le_trans hbc hab
    intro x hx y hy
    obtain ⟨hq, hx1, -⟩ := hfacts x hx
    obtain ⟨-, hy1, -⟩ := hfacts y hy
    constructor
    · exact (searchLE_iff qv x y hq hx1 hy1).mp
    · intro hfalse
      have hnot : ¬ (cosine qv (vectorize y.text) ≤ cosine qv (vectorize x.text)) := by
        rw [← searchLE_iff qv x y hq hx1 hy1, hfalse]
        simp
      exact (lt_of_not_le hnot).le
  have hstab : ∀ b ∈ scored, (insertionSort (searchLE qv) scored).filter
      (sameScore qv (entryKey qv b)) = scored.filter (sameScore qv (entryKey qv b)) := by
    intro b hb
    obtain ⟨-, hb1, -⟩ := hfacts b hb
    refine insertionSort_filter _ _ ?_ scored
    intro x y hx hy
    refine sameScore_searchLE qv (entryKey qv b) ?_ x y hx hy
    exact sumsq_pos _ hb1
  have hres : semanticSearch entries uid query limit
      = pySliceTo (insertionSort (searchLE qv) scored) limit := rfl
  have hsub : ∀ e ∈ semanticSearch entries uid query limit, e ∈ scored := by
    intro e he
    rw [hres, pySliceTo] at he
    refine hperm.subset ?_
    by_cases hl : limit < 0
    · rw [if_pos hl] at he
      exact List.take_subset _ _ he
    · rw [if_neg hl] at he
      exact List.take_subset _ _ he
  refine ⟨?_, ?_, ?_, hres, hperm, hpair, hstab, ?_⟩
  · intro e he
    have hesc := hsub e he
    refine ⟨by simpa using (hmem e hesc).1, ?_⟩
    rw [← scorePos_iff_cosine_pos]
    exact (hmem e hesc).2
  · intro e hein huid hcos hmem'
    have hesc := hsub e hmem'
    exact hcos ((scorePos_iff_cosine_pos qv (vectorize e.text)).mp (hmem e hesc).2)
  · intro hl
    rw [hres, pySliceTo, if_neg (by omega), List.length_take]
    have hlen := hperm.length_eq
    omega
  · intro a ha b hb
    obtain ⟨hq, ha1, -⟩ := hfacts a ha
    obtain ⟨-, hb1, -⟩ := hfacts b hb
    exact sameScore_iff qv a b hq ha1 hb1

/-- Witness for C6: a two-entry log where only the matching-token entry of
the user is returned, within the limit. -/
theorem claim_C6_witness :
    ((semanticSearch [{ kind := Kind.note, user_id := "u6", text := "sales", metadata := [] },
        { kind := Kind.note, user_id := "u6", text := "pizza", metadata := [] }]
        "u6" "sales" 5).length : ℤ) ≤ 5 := by
  have h := claim_C6_semantic_search
    [{ kind := Kind.note, user_id := "u6", text := "sales", metadata := [] },
     { kind := Kind.note, user_id := "u6", text := "pizza", metadata := [] }] "u6" "sales" 5
  exact h.2.2.1 (by norm_num)

/-- Counterexample to C6 as stated: at `limit = -1` with two positive-score
entries the Python slice `scored[:-1]` returns one entry, which is not
"at most `limit`" entries. -/
theorem claim_C6_counterexample :
    ¬ (((semanticSearch
          [{ kind := Kind.note, user_id := "u6", text := "sales", metadata := [] },
           { kind := Kind.note, user_id := "u6", text := "sales", metadata := [] }]
          "u6" "sales" (-1)).length : ℤ) ≤ -1) := by
  decide

/-- Witness for C1 (amended) at a concrete successful execution. -/
theorem claim_C1_witness :
    ∃ r, getTask (execute demoReg { tasks := [], memory := [] } "t-c1w"
          { user_id := "u1w", instruction := "hello", context := emptyContext }).2.tasks "t-c1w"
        = some r
      ∧ r.plan = planFn "hello" emptyContext
      ∧ r.outputs.length ≤ r.plan.length := by
  obtain ⟨r, h1, h2, h3, -⟩ := claim_C1_record_invariant demoReg { tasks := [], memory := [] }
    "t-c1w" { user_id := "u1w", instruction := "hello", context := emptyContext }
  exact ⟨r, h1, h2, h3⟩
